import Mathlib

/-!
Verification of the quicr wire-format core: a shallow embedding of the
VarInt codec and `MessageBuffer` extraction operators
(`src/message_buffer.cpp`), and of the 128-bit `Name` / `Namespace`
primitives (`src/quicr_name.cpp`), together with theorems settling the
specified properties against the embedded code.

Buffers are lists of bytes (naturals `< 256`), head = front of the
`MessageBuffer`.  C++ exceptions are modelled with `Except`; machine
integers are naturals with explicit masking/`% 2^w` where the C++ types
force truncation.
-/

set_option maxRecDepth 4000

namespace quicr

/-- Outcomes of the fallible `MessageBuffer` operations.  Each constructor
corresponds to one `throw` site in `message_buffer.cpp`, except
`frontOnEmptyUB`, which marks the out-of-contract call
`_buffer.front()` on an empty `std::vector` (undefined behavior in the
C++ source, reached by `operator>>(MessageBuffer&, uintVar_t&)` when the
buffer is empty). -/
inductive MBErr where
  /-- `throw MessageBufferException("Cannot read from empty message buffer")` -/
  | bufferEmpty
  /-- `throw MessageBufferException("uintVar_t cannot have a value greater than 1 << 61")` -/
  | magnitude
  /-- `throw MessageBufferException("Decoded vector size is 0")` -/
  | zeroLength
  /-- `throw std::out_of_range("len cannot be longer than the size of the buffer")` -/
  | outOfRange
  /-- `msg.front()` evaluated with an empty underlying vector: undefined behavior. -/
  | frontOnEmptyUB
  deriving DecidableEq

instance exceptDecEq {ε α : Type} [DecidableEq ε] [DecidableEq α] :
    DecidableEq (Except ε α) := fun a b =>
  match a, b with
  | .error x, .error y =>
    if h : x = y then isTrue (congrArg Except.error h)
    else isFalse (fun hc => h (Except.error.inj hc))
  | .ok x, .ok y =>
    if h : x = y then isTrue (congrArg Except.ok h)
    else isFalse (fun hc => h (Except.ok.inj hc))
  | .error _, .ok _ => isFalse Except.noConfusion
  | .ok _, .error _ => isFalse Except.noConfusion

/-- C++ `operator>>(MessageBuffer&, uint8_t&)`: throws when the buffer is
empty, otherwise returns the front byte and consumes it. -/
def readUint8 : List Nat → Except MBErr (Nat × List Nat)
  | [] => .error .bufferEmpty
  | b :: rest => .ok (b, rest)

/-- C++ `operator>>(MessageBuffer&, uint64_t&)`: reads 8 bytes
(most-significant first on the wire) and reassembles
`(byte[0] << 0) + (byte[1] << 8) + ... + (byte[7] << 56)`. -/
def readUint64 (msg : List Nat) : Except MBErr (Nat × List Nat) := do
  let (b7, msg) ← readUint8 msg
  let (b6, msg) ← readUint8 msg
  let (b5, msg) ← readUint8 msg
  let (b4, msg) ← readUint8 msg
  let (b3, msg) ← readUint8 msg
  let (b2, msg) ← readUint8 msg
  let (b1, msg) ← readUint8 msg
  let (b0, msg) ← readUint8 msg
  .ok ((b0 <<< 0) + (b1 <<< 8) + (b2 <<< 16) + (b3 <<< 24) +
       (b4 <<< 32) + (b5 <<< 40) + (b6 <<< 48) + (b7 <<< 56), msg)

/-- C++ `operator<<(MessageBuffer&, const uintVar_t&)`: rejects values
`>= 1 << 61`, then emits 1, 2, 4 or 8 bytes according to the magnitude
tiers `< 2^7`, `< 2^14`, `< 2^29`, else; the first byte carries the tag
bits `0x00` / `0x80` / `0x80|0x40` / `0x80|0x40|0x20` or-ed onto the
masked top payload bits. -/
def encVarint (val : Nat) : Except MBErr (List Nat) :=
  if val ≥ 2 ^ 61 then .error .magnitude
  else if val < 2 ^ 7 then
    .ok [((val >>> 0) &&& 0x7F) ||| 0x00]
  else if val < 2 ^ 14 then
    .ok [((val >>> 8) &&& 0x3F) ||| 0x80,
         (val >>> 0) &&& 0xFF]
  else if val < 2 ^ 29 then
    .ok [((val >>> 24) &&& 0x1F) ||| (0x80 ||| 0x40),
         (val >>> 16) &&& 0xFF,
         (val >>> 8) &&& 0xFF,
         (val >>> 0) &&& 0xFF]
  else
    .ok [((val >>> 56) &&& 0x0F) ||| (0x80 ||| 0x40 ||| 0x20),
         (val >>> 48) &&& 0xFF,
         (val >>> 40) &&& 0xFF,
         (val >>> 32) &&& 0xFF,
         (val >>> 24) &&& 0xFF,
         (val >>> 16) &&& 0xFF,
         (val >>> 8) &&& 0xFF,
         (val >>> 0) &&& 0xFF]

/-- C++ `operator>>(MessageBuffer&, uintVar_t&)`: peeks the first byte via
`msg.front()` — with no emptiness check, so an empty buffer is the
undefined-behavior outcome `frontOnEmptyUB` — then dispatches on the
leading tag bits and reads 1, 2, 4 or 8 bytes, masking the tag off the
first byte. -/
def decVarint (msg : List Nat) : Except MBErr (Nat × List Nat) :=
  match msg with
  | [] => .error .frontOnEmptyUB
  | first :: _ =>
    if first &&& 0x80 == 0 then do
      let (b0, msg) ← readUint8 msg
      .ok ((b0 &&& 0x7F) <<< 0, msg)
    else if first &&& (0x80 ||| 0x40) == 0x80 then do
      let (b1, msg) ← readUint8 msg
      let (b0, msg) ← readUint8 msg
      .ok (((b1 &&& 0x3F) <<< 8) + (b0 <<< 0), msg)
    else if first &&& (0x80 ||| 0x40 ||| 0x20) == (0x80 ||| 0x40) then do
      let (b3, msg) ← readUint8 msg
      let (b2, msg) ← readUint8 msg
      let (b1, msg) ← readUint8 msg
      let (b0, msg) ← readUint8 msg
      .ok (((b3 &&& 0x1F) <<< 24) + (b2 <<< 16) + (b1 <<< 8) + (b0 <<< 0), msg)
    else do
      let (b7, msg) ← readUint8 msg
      let (b6, msg) ← readUint8 msg
      let (b5, msg) ← readUint8 msg
      let (b4, msg) ← readUint8 msg
      let (b3, msg) ← readUint8 msg
      let (b2, msg) ← readUint8 msg
      let (b1, msg) ← readUint8 msg
      let (b0, msg) ← readUint8 msg
      .ok (((b7 &&& 0x0F) <<< 56) + (b6 <<< 48) + (b5 <<< 40) + (b4 <<< 32) +
           (b3 <<< 24) + (b2 <<< 16) + (b1 <<< 8) + (b0 <<< 0), msg)

/-- Composition: encode a value with the VarInt appender into a fresh
buffer, then run the VarInt extractor on the resulting bytes. -/
def encThenDec (v : Nat) : Except MBErr (Nat × List Nat) := do
  let bytes ← encVarint v
  decVarint bytes

/-- C++ `MessageBuffer::front(uint16_t len)`: throws `std::out_of_range`
when `len` exceeds the buffer size, otherwise returns the first `len`
bytes without consuming them. -/
def mbFrontN (len : Nat) (buf : List Nat) : Except MBErr (List Nat) :=
  if buf.length < len then .error .outOfRange else .ok (buf.take len)

/-- C++ `MessageBuffer::pop(uint16_t len)`: throws `std::out_of_range`
when `len` exceeds the buffer size, otherwise erases the first `len`
bytes. -/
def mbPopN (len : Nat) (buf : List Nat) : Except MBErr (List Nat) :=
  if buf.length < len then .error .outOfRange else .ok (buf.drop len)

/-- C++ `operator>>(MessageBuffer&, std::vector<uint8_t>&)`: extracts a
VarInt length, rejects a zero length, then calls `front`/`pop` — whose
`uint16_t` parameter truncates the `size_t` length to its low 16 bits
(`% 2^16`) — and returns the bytes read. -/
def readVec (msg : List Nat) : Except MBErr (List Nat × List Nat) := do
  let (vecSize, msg) ← decVarint msg
  let len := vecSize
  if len == 0 then .error .zeroLength
  else
    let len16 := len % 2 ^ 16
    let val ← mbFrontN len16 msg
    let msg ← mbPopN len16 msg
    .ok (val, msg)

/-- Specification reference for the byte-vector extractor, following the
spec's words: read a VarInt length `len`, fail on a zero length, fail
when fewer than `len` bytes remain, otherwise return exactly the `len`
head bytes and consume them.  Stated for comparison with `readVec`,
which is translated from the code. -/
def readVecSpec (len : Nat) (rest : List Nat) : Except MBErr (List Nat × List Nat) :=
  if len = 0 then .error .zeroLength
  else if rest.length < len then .error .outOfRange
  else .ok (rest.take len, rest.drop len)

/-- C++ `quicr::Name`: two `uint64_t` members `_hi`, `_low`
(`src/quicr_name.cpp`); a 128-bit value, most-significant word in `hi`. -/
structure Name where
  hi : Nat
  low : Nat
  deriving DecidableEq

/-- The 128-bit value a `Name` denotes: `low + hi * 2^64`. -/
def nameVal (n : Name) : Nat := n.low + n.hi * 2 ^ 64

/-- C++ `static const bitset_t bitset_divider(UINT64_MAX)`: the low-64-bit
mask. -/
def bitset_divider : Nat := 2 ^ 64 - 1

/-- C++ `make_bitset(uint64_t low, uint64_t hi)`:
`bitset_t(low) | (bitset_t(hi) << 64)`. -/
def make_bitset (low hi : Nat) : Nat := low ||| (hi <<< 64)

/-- C++ `split_bitset`: `(bits & divider, (bits >> 64) & divider)`. -/
def split_bitset (bits : Nat) : Nat × Nat :=
  (bits &&& bitset_divider, (bits >>> 64) &&& bitset_divider)

/-- C++ `Name::operator>>(uint16_t value)`: builds the 128-bit bitset,
evaluates the statement `bits >> value;` — whose result is discarded, so
`bits` is left unchanged — and splits the (unshifted) bitset back into
the two words. -/
def Name.shr (n : Name) (value : Nat) : Name :=
  let bits := make_bitset n.low n.hi
  let _ := bits >>> value
  let p := split_bitset bits
  { low := p.1, hi := p.2 }

/-- C++ `Name::operator<<(uint16_t value)`: same shape as `operator>>`;
the statement `bits << value;` discards its result. -/
def Name.shl (n : Name) (value : Nat) : Name :=
  let bits := make_bitset n.low n.hi
  let _ := bits <<< value
  let p := split_bitset bits
  { low := p.1, hi := p.2 }

/-- C++ lambda `full_adder` in `add_bitset`: sum bit and carry-out. -/
def full_adder (a b carry : Bool) : Bool × Bool :=
  ((a ^^ b) ^^ carry, (a && b) || (a && carry) || (b && carry))

/-- The `for (i = 0; i < 128; ++i)` ripple loop of `add_bitset`, on
little-endian bit lists. -/
def rippleAdd : List Bool → List Bool → Bool → List Bool
  | a :: as, b :: bs, carry =>
    let s := full_adder a b carry
    s.1 :: rippleAdd as bs s.2
  | _, _, _ => []

/-- The `len` low bits of `n`, little-endian (bit `i` of the C++
`std::bitset`). -/
def toBits : Nat → Nat → List Bool
  | 0, _ => []
  | len + 1, n => (n % 2 == 1) :: toBits len (n / 2)

/-- Value of a little-endian bit list. -/
def ofBits : List Bool → Nat
  | [] => 0
  | b :: bs => b.toNat + 2 * ofBits bs

/-- C++ `add_bitset(x, y)`: 128-bit ripple-carry addition; the final carry
out of bit 127 is dropped. -/
def add_bitset (x y : Nat) : Nat :=
  ofBits (rippleAdd (toBits 128 x) (toBits 128 y) false)

/-- C++ lambda `full_subtractor` in `sub_bitset`: difference bit and
borrow-out. -/
def full_subtractor (a b borrow : Bool) : Bool × Bool :=
  if borrow then (!(a ^^ b), !a || (a && b))
  else (a ^^ b, !a && b)

/-- The ripple loop of `sub_bitset`. -/
def rippleSub : List Bool → List Bool → Bool → List Bool
  | a :: as, b :: bs, borrow =>
    let s := full_subtractor a b borrow
    s.1 :: rippleSub as bs s.2
  | _, _, _ => []

/-- C++ `sub_bitset(x, y)`: 128-bit ripple-borrow subtraction; the final
borrow out of bit 127 is dropped. -/
def sub_bitset (x y : Nat) : Nat :=
  ofBits (rippleSub (toBits 128 x) (toBits 128 y) false)

/-- C++ `Name::operator+(uint64_t value)`: `add_bitset` on the name's
bitset and `bitset_t(value)`, split back into the two words. -/
def Name.add (n : Name) (value : Nat) : Name :=
  let bits := make_bitset n.low n.hi
  let value_bits := value
  let p := split_bitset (add_bitset bits value_bits)
  { low := p.1, hi := p.2 }

/-- C++ `Name::operator-(uint64_t value)`: `sub_bitset` on the name's
bitset and `bitset_t(value)`, split back into the two words. -/
def Name.sub (n : Name) (value : Nat) : Name :=
  let bits := make_bitset n.low n.hi
  let value_bits := value
  let p := split_bitset (sub_bitset bits value_bits)
  { low := p.1, hi := p.2 }

/-- C++ `Name::operator&(uint64_t value)`: `_low &= value;` — the high
word is not touched. -/
def Name.and64 (n : Name) (value : Nat) : Name :=
  { n with low := n.low &&& value }

/-- C++ `Name::operator|(uint64_t value)`: `_low |= value;` — the high
word is not touched. -/
def Name.or64 (n : Name) (value : Nat) : Name :=
  { n with low := n.low ||| value }

/-- C++ `operator==(const Name&, const Name&)`:
`!(a._hi ^ b._hi | a._low ^ b._low)`. -/
def Name.eqBool (a b : Name) : Bool :=
  ((a.hi ^^^ b.hi) ||| (a.low ^^^ b.low)) == 0

/-- C++ `operator<(const Name&, const Name&)`:
`std::tie(a._hi, b._low) < std::tie(b._hi, b._low)` — note the first
tuple reads `b._low`, not `a._low`. -/
def Name.ltBool (a b : Name) : Bool :=
  decide (a.hi < b.hi ∨ (a.hi = b.hi ∧ b.low < b.low))

/-- C++ `Name::Name(const std::string& hex_value)`: the constructor body
is empty — the string is never examined, nothing is validated, no
exception is thrown, and `_hi`/`_low` are left uninitialized.  The
indeterminate initial member values are made explicit as the `junkHi`
and `junkLow` parameters. -/
def Name.fromHexString (hex_value : String) (junkHi junkLow : Nat) : Name :=
  let _ := hex_value
  { hi := junkHi, low := junkLow }

/-- C++ `const size_t max_uint_type_bit_size = sizeof(Name::uint_type) * 8 * 2`. -/
def max_uint_type_bit_size : Nat := 8 * 8 * 2

/-- C++ `quicr::Namespace`: a `Name` plus a significant-bit count
(`src/quicr_name.cpp`, `Namespace` part). -/
structure Namespace where
  name : Name
  sig_bits : Nat
  deriving DecidableEq

/-- C++ `Namespace::contains(const Name& name)`:
`(name >> insig_bits) == (_name >> insig_bits)` with
`insig_bits = max_uint_type_bit_size - _sig_bits`. -/
def Namespace.containsName (ns : Namespace) (n : Name) : Bool :=
  let insig_bits := max_uint_type_bit_size - ns.sig_bits
  Name.eqBool (Name.shr n insig_bits) (Name.shr ns.name insig_bits)

/-! ### Supporting lemmas: bit lists -/

theorem toBits_length (len : Nat) : ∀ n, (toBits len n).length = len := by
  induction len with
  | zero => intro n; rfl
  | succ k ih => intro n; simp [toBits, ih]

theorem ofBits_toBits (len : Nat) : ∀ n, ofBits (toBits len n) = n % 2 ^ len := by
  induction len with
  | zero => intro n; simp [toBits, ofBits, Nat.mod_one]
  | succ k ih =>
    intro n
    have h2 : (2 : Nat) ^ (k + 1) = 2 * 2 ^ k := by ring
    rw [toBits, ofBits, ih, h2, Nat.mod_mul]
    rcases Nat.mod_two_eq_zero_or_one n with h | h <;> simp [h]

theorem ofBits_lt (bs : List Bool) : ofBits bs < 2 ^ bs.length := by
  induction bs with
  | nil => simp [ofBits]
  | cons b bs ih =>
    have h2 : (2 : Nat) ^ (b :: bs).length = 2 * 2 ^ bs.length := by
      rw [List.length_cons]; ring
    rw [ofBits, h2]
    cases b <;> simp only [Bool.toNat_false, Bool.toNat_true] <;> omega

theorem add_two_mul_mod (u x m : Nat) (hu : u < 2) (hm : 0 < m) :
    u + 2 * (x % m) = (u + 2 * x) % (2 * m) := by
  conv_rhs => rw [← Nat.mod_add_div x m]
  rw [show u + 2 * (x % m + m * (x / m)) = u + 2 * (x % m) + x / m * (2 * m) by
        ring,
      Nat.add_mul_mod_self_right]
  have hxm : x % m < m := Nat.mod_lt x hm
  exact (Nat.mod_eq_of_lt (by omega)).symm

theorem full_adder_val : ∀ a b c : Bool,
    a.toNat + b.toNat + c.toNat =
      (full_adder a b c).1.toNat + 2 * (full_adder a b c).2.toNat := by decide

theorem rippleAdd_val (as : List Bool) : ∀ (bs : List Bool) (c : Bool),
    as.length = bs.length →
    ofBits (rippleAdd as bs c) = (ofBits as + ofBits bs + c.toNat) % 2 ^ as.length := by
  induction as with
  | nil =>
    intro bs c h
    cases bs with
    | nil => simp [rippleAdd, ofBits, Nat.mod_one]
    | cons b bs => simp at h
  | cons a as ih =>
    intro bs c h
    cases bs with
    | nil => simp at h
    | cons b bs =>
      simp only [List.length_cons, Nat.add_right_cancel_iff] at h
      show ofBits ((full_adder a b c).1 :: rippleAdd as bs (full_adder a b c).2) = _
      rw [ofBits, ih bs (full_adder a b c).2 h]
      have hmod := add_two_mul_mod (full_adder a b c).1.toNat
        (ofBits as + ofBits bs + (full_adder a b c).2.toNat) (2 ^ as.length)
        (by cases (full_adder a b c).1 <;> decide) (Nat.pos_pow_of_pos _ (by decide))
      rw [hmod, ofBits, ofBits, List.length_cons,
        show (2 : Nat) ^ (as.length + 1) = 2 * 2 ^ as.length by ring]
      congr 1
      have hv := full_adder_val a b c
      omega

theorem full_subtractor_eq : ∀ a b c : Bool,
    full_subtractor a b c =
      ((full_adder a (!b) (!c)).1, !(full_adder a (!b) (!c)).2) := by decide

theorem rippleSub_eq (as : List Bool) : ∀ (bs : List Bool) (c : Bool),
    rippleSub as bs c = rippleAdd as (bs.map not) (!c) := by
  induction as with
  | nil => intro bs c; cases bs <;> rfl
  | cons a as ih =>
    intro bs c
    cases bs with
    | nil => rfl
    | cons b bs =>
      show (full_subtractor a b c).1 :: rippleSub as bs (full_subtractor a b c).2 =
        (full_adder a (!b) (!c)).1 :: rippleAdd as (bs.map not) (full_adder a (!b) (!c)).2
      rw [full_subtractor_eq a b c, ih bs, Bool.not_not]

theorem ofBits_map_not (bs : List Bool) :
    ofBits (bs.map not) = 2 ^ bs.length - 1 - ofBits bs := by
  induction bs with
  | nil => rfl
  | cons b bs ih =>
    have hlt := ofBits_lt bs
    have h1 : (1 : Nat) ≤ 2 ^ bs.length := Nat.one_le_two_pow
    show ofBits ((!b) :: bs.map not) = _
    rw [ofBits, ih, ofBits, List.length_cons,
      show (2 : Nat) ^ (bs.length + 1) = 2 * 2 ^ bs.length by ring]
    cases b <;> simp only [Bool.not_false, Bool.not_true, Bool.toNat_false,
      Bool.toNat_true] <;> omega

theorem add_bitset_val (x y : Nat) :
    add_bitset x y = (x % 2 ^ 128 + y % 2 ^ 128) % 2 ^ 128 := by
  unfold add_bitset
  rw [rippleAdd_val _ _ _ (by rw [toBits_length, toBits_length]),
    ofBits_toBits, ofBits_toBits, toBits_length, Bool.toNat_false, Nat.add_zero]

theorem sub_bitset_val (x y : Nat) :
    sub_bitset x y = (x % 2 ^ 128 + (2 ^ 128 - y % 2 ^ 128)) % 2 ^ 128 := by
  unfold sub_bitset
  rw [rippleSub_eq,
    rippleAdd_val _ _ _ (by rw [toBits_length, List.length_map, toBits_length]),
    ofBits_toBits, ofBits_map_not, ofBits_toBits, toBits_length, toBits_length]
  have hy : y % 2 ^ 128 < 2 ^ 128 := Nat.mod_lt y (Nat.pos_pow_of_pos _ (by decide))
  congr 1
  simp only [Bool.not_false, Bool.toNat_true]
  omega

/-! ### Supporting lemmas: 128-bit word splitting -/

theorem lor_shl_eq_add (a b k : Nat) (h : a < 2 ^ k) :
    a ||| (b <<< k) = a + b * 2 ^ k := by
  apply Nat.eq_of_testBit_eq
  intro i
  have hadd : a + b * 2 ^ k = 2 ^ k * b + a := by ring
  rw [Nat.testBit_lor, Nat.testBit_shiftLeft, hadd,
    Nat.testBit_mul_pow_two_add _ h]
  by_cases hcase : i < k
  · have hni : ¬(i ≥ k) := by omega
    simp [hcase, hni]
  · have hge : i ≥ k := by omega
    have hlow : a.testBit i = false :=
      Nat.testBit_eq_false_of_lt
        (lt_of_lt_of_le h (Nat.pow_le_pow_right (by decide) hge))
    simp [hcase, hge, hlow]

theorem make_bitset_val (low hi : Nat) (h : low < 2 ^ 64) :
    make_bitset low hi = low + hi * 2 ^ 64 :=
  lor_shl_eq_add low hi 64 h

theorem and_divider_eq_mod (x : Nat) : x &&& bitset_divider = x % 2 ^ 64 :=
  Nat.and_pow_two_sub_one_eq_mod x 64

theorem split_bitset_eq (bits : Nat) :
    split_bitset bits = (bits % 2 ^ 64, bits / 2 ^ 64 % 2 ^ 64) := by
  unfold split_bitset
  rw [and_divider_eq_mod, and_divider_eq_mod, Nat.shiftRight_eq_div_pow]

theorem split_make (low hi : Nat) (hl : low < 2 ^ 64) (hh : hi < 2 ^ 64) :
    split_bitset (make_bitset low hi) = (low, hi) := by
  rw [split_bitset_eq, make_bitset_val low hi hl, Nat.add_mul_mod_self_right,
    Nat.mod_eq_of_lt hl, Nat.add_mul_div_right _ _ (Nat.pos_pow_of_pos _ (by decide)),
    Nat.div_eq_of_lt hl, Nat.zero_add, Nat.mod_eq_of_lt hh]

theorem split_val (t : Nat) (ht : t < 2 ^ 128) :
    (split_bitset t).1 + (split_bitset t).2 * 2 ^ 64 = t := by
  rw [split_bitset_eq]
  have h1 : t / 2 ^ 64 < 2 ^ 64 := by
    apply Nat.div_lt_of_lt_mul
    calc t < 2 ^ 128 := ht
    _ = 2 ^ 64 * 2 ^ 64 := by norm_num
  rw [Nat.mod_eq_of_lt h1, Nat.mod_add_div']

/-! ### Supporting lemmas: VarInt tag bytes -/

theorem and_0x7F (x : Nat) : x &&& 0x7F = x % 128 := by
  have h := Nat.and_pow_two_sub_one_eq_mod x 7
  norm_num at h
  exact h

theorem and_0x3F (x : Nat) : x &&& 0x3F = x % 64 := by
  have h := Nat.and_pow_two_sub_one_eq_mod x 6
  norm_num at h
  exact h

theorem and_0x1F (x : Nat) : x &&& 0x1F = x % 32 := by
  have h := Nat.and_pow_two_sub_one_eq_mod x 5
  norm_num at h
  exact h

theorem and_0x0F (x : Nat) : x &&& 0x0F = x % 16 := by
  have h := Nat.and_pow_two_sub_one_eq_mod x 4
  norm_num at h
  exact h

theorem and_0xFF (x : Nat) : x &&& 0xFF = x % 256 := by
  have h := Nat.and_pow_two_sub_one_eq_mod x 8
  norm_num at h
  exact h

theorem tag1 : ∀ u, u < 128 → (u &&& 0x80 == 0) = true := by decide

theorem tag2 : ∀ u, u < 64 →
    ((u ||| 0x80) &&& 0x80 == 0) = false ∧
    ((u ||| 0x80) &&& (0x80 ||| 0x40) == 0x80) = true ∧
    (u ||| 0x80) &&& 0x3F = u := by decide

theorem tag3 : ∀ u, u < 32 →
    ((u ||| (0x80 ||| 0x40)) &&& 0x80 == 0) = false ∧
    ((u ||| (0x80 ||| 0x40)) &&& (0x80 ||| 0x40) == 0x80) = false ∧
    ((u ||| (0x80 ||| 0x40)) &&& (0x80 ||| 0x40 ||| 0x20) == (0x80 ||| 0x40)) = true ∧
    (u ||| 0xC0) &&& 0x1F = u := by decide

theorem tag4 : ∀ u, u < 16 →
    ((u ||| (0x80 ||| 0x40 ||| 0x20)) &&& 0x80 == 0) = false ∧
    ((u ||| (0x80 ||| 0x40 ||| 0x20)) &&& (0x80 ||| 0x40) == 0x80) = false ∧
    ((u ||| (0x80 ||| 0x40 ||| 0x20)) &&& (0x80 ||| 0x40 ||| 0x20) == (0x80 ||| 0x40))
      = false ∧
    (u ||| 0xE0) &&& 0x0F = u := by decide

/-- One-byte tier of the VarInt extractor on a buffer whose first byte has
a clear top bit. -/
theorem decVarint_tier1 (b0 : Nat) (h : b0 < 128) (rest : List Nat) :
    decVarint (b0 :: rest) = .ok ((b0 &&& 0x7F) <<< 0, rest) := by
  simp only [decVarint]
  rw [tag1 b0 h]
  simp [readUint8, Bind.bind, Except.bind]

/-- Two-byte tier of the VarInt extractor. -/
theorem decVarint_tier2 (u b0 : Nat) (hu : u < 64) (rest : List Nat) :
    decVarint ((u ||| 0x80) :: b0 :: rest) =
      .ok ((u <<< 8) + (b0 <<< 0), rest) := by
  simp only [decVarint]
  rw [(tag2 u hu).1, (tag2 u hu).2.1]
  simp [readUint8, Bind.bind, Except.bind, (tag2 u hu).2.2]

/-- Four-byte tier of the VarInt extractor. -/
theorem decVarint_tier3 (u b2 b1 b0 : Nat) (hu : u < 32) (rest : List Nat) :
    decVarint ((u ||| (0x80 ||| 0x40)) :: b2 :: b1 :: b0 :: rest) =
      .ok ((u <<< 24) + (b2 <<< 16) + (b1 <<< 8) + (b0 <<< 0), rest) := by
  simp only [decVarint]
  rw [(tag3 u hu).1, (tag3 u hu).2.1, (tag3 u hu).2.2.1]
  simp [readUint8, Bind.bind, Except.bind, (tag3 u hu).2.2.2]

/-- Eight-byte tier of the VarInt extractor. -/
theorem decVarint_tier4 (u b6 b5 b4 b3 b2 b1 b0 : Nat) (hu : u < 16)
    (rest : List Nat) :
    decVarint ((u ||| (0x80 ||| 0x40 ||| 0x20)) ::
        b6 :: b5 :: b4 :: b3 :: b2 :: b1 :: b0 :: rest) =
      .ok ((u <<< 56) + (b6 <<< 48) + (b5 <<< 40) + (b4 <<< 32) +
           (b3 <<< 24) + (b2 <<< 16) + (b1 <<< 8) + (b0 <<< 0), rest) := by
  simp only [decVarint]
  rw [(tag4 u hu).1, (tag4 u hu).2.1, (tag4 u hu).2.2.1]
  simp [readUint8, Bind.bind, Except.bind, (tag4 u hu).2.2.2]

/-- The magnitude guard branch of the VarInt appender. -/
theorem encVarint_big (w : Nat) (hw : 2 ^ 61 ≤ w) :
    encVarint w = .error .magnitude := by
  unfold encVarint
  rw [if_pos hw]

/-- One-byte tier of the VarInt appender. -/
theorem encVarint_tier1 (v : Nat) (h : v < 2 ^ 7) :
    encVarint v = .ok [((v >>> 0) &&& 0x7F) ||| 0x00] := by
  unfold encVarint
  rw [if_neg (by omega), if_pos h]

/-- Two-byte tier of the VarInt appender. -/
theorem encVarint_tier2 (v : Nat) (h7 : ¬v < 2 ^ 7) (h14 : v < 2 ^ 14) :
    encVarint v = .ok [((v >>> 8) &&& 0x3F) ||| 0x80, (v >>> 0) &&& 0xFF] := by
  unfold encVarint
  rw [if_neg (by omega), if_neg h7, if_pos h14]

/-- Four-byte tier of the VarInt appender. -/
theorem encVarint_tier3 (v : Nat) (h14 : ¬v < 2 ^ 14) (h29 : v < 2 ^ 29) :
    encVarint v = .ok [((v >>> 24) &&& 0x1F) ||| (0x80 ||| 0x40),
      (v >>> 16) &&& 0xFF, (v >>> 8) &&& 0xFF, (v >>> 0) &&& 0xFF] := by
  unfold encVarint
  rw [if_neg (by omega), if_neg (by omega), if_neg h14, if_pos h29]

/-- Eight-byte tier of the VarInt appender. -/
theorem encVarint_tier4 (v : Nat) (h29 : ¬v < 2 ^ 29) (h61 : ¬2 ^ 61 ≤ v) :
    encVarint v = .ok [((v >>> 56) &&& 0x0F) ||| (0x80 ||| 0x40 ||| 0x20),
      (v >>> 48) &&& 0xFF, (v >>> 40) &&& 0xFF, (v >>> 32) &&& 0xFF,
      (v >>> 24) &&& 0xFF, (v >>> 16) &&& 0xFF, (v >>> 8) &&& 0xFF,
      (v >>> 0) &&& 0xFF] := by
  unfold encVarint
  rw [if_neg h61, if_neg (by omega), if_neg (by omega), if_neg h29]

example : encThenDec 5 = .ok (5, []) := by decide
example : encThenDec 300 = .ok (300, []) := by decide
example : encThenDec (2 ^ 29 - 1) = .ok (2 ^ 29 - 1, []) := by decide
example : encThenDec (2 ^ 60) = .ok (0, []) := by decide
example : encVarint (2 ^ 61) = .error .magnitude := by decide
example : decVarint [] = .error .frontOnEmptyUB := by decide
example : readVec [0xC0, 1, 0, 0] = .ok ([], []) := by decide
example : readVec [2, 7, 8, 9] = .ok ([7, 8], [9]) := by decide
example : readVec [0] = .error .zeroLength := by decide
example : readVec [3, 7] = .error .outOfRange := by decide

example : Name.shr ⟨0, 0x1234⟩ 4 = ⟨0, 0x1234⟩ := by decide
example : Name.shl ⟨0, 0x1234⟩ 4 = ⟨0, 0x1234⟩ := by decide
example : Name.add ⟨0x0FFFFFFFFFFFFFFF, 0xFFFFFFFFFFFFFFFF⟩ 1 =
    ⟨0x1000000000000000, 0⟩ := by decide
example : Name.sub ⟨0x1000000000000000, 0⟩ 1 =
    ⟨0x0FFFFFFFFFFFFFFF, 0xFFFFFFFFFFFFFFFF⟩ := by decide
example : Name.ltBool ⟨0, 0x123⟩ ⟨0, 0x124⟩ = false := by decide
example : Name.eqBool ⟨0, 0x123⟩ ⟨0, 0x123⟩ = true := by decide
example :
    Namespace.containsName
      ⟨⟨0x1111111111111111, 0x2222222222222200⟩, 120⟩
      ⟨0x1111111111111111, 0x22222222222222FF⟩ = false := by decide
example :
    Namespace.containsName
      ⟨⟨0x1111111111111111, 0x2222222222222200⟩, 120⟩
      ⟨0x1111111111111111, 0x2222222222222200⟩ = true := by decide

/-! ### Supporting lemmas: Name operations -/

theorem name_shr_self (hi low k : Nat) (hh : hi < 2 ^ 64) (hl : low < 2 ^ 64) :
    Name.shr ⟨hi, low⟩ k = ⟨hi, low⟩ := by
  show Name.mk (split_bitset (make_bitset low hi)).2
      (split_bitset (make_bitset low hi)).1 = Name.mk hi low
  rw [split_make low hi hl hh]

theorem name_shl_self (hi low k : Nat) (hh : hi < 2 ^ 64) (hl : low < 2 ^ 64) :
    Name.shl ⟨hi, low⟩ k = ⟨hi, low⟩ := by
  show Name.mk (split_bitset (make_bitset low hi)).2
      (split_bitset (make_bitset low hi)).1 = Name.mk hi low
  rw [split_make low hi hl hh]

theorem name_add_val (hi low v : Nat) (hh : hi < 2 ^ 64) (hl : low < 2 ^ 64)
    (hv : v < 2 ^ 64) :
    nameVal (Name.add ⟨hi, low⟩ v) = (nameVal ⟨hi, low⟩ + v) % 2 ^ 128 := by
  have hT : add_bitset (make_bitset low hi) v = (low + hi * 2 ^ 64 + v) % 2 ^ 128 := by
    rw [add_bitset_val, make_bitset_val low hi hl,
      Nat.mod_eq_of_lt (show low + hi * 2 ^ 64 < 2 ^ 128 by omega),
      Nat.mod_eq_of_lt (show v < 2 ^ 128 by omega)]
  show (split_bitset (add_bitset (make_bitset low hi) v)).1 +
      (split_bitset (add_bitset (make_bitset low hi) v)).2 * 2 ^ 64 = _
  rw [hT, split_val _ (Nat.mod_lt _ (by norm_num))]
  rfl

theorem name_sub_val (hi low v : Nat) (hh : hi < 2 ^ 64) (hl : low < 2 ^ 64)
    (hv : v < 2 ^ 64) :
    nameVal (Name.sub ⟨hi, low⟩ v) = (nameVal ⟨hi, low⟩ + (2 ^ 128 - v)) % 2 ^ 128 := by
  have hT : sub_bitset (make_bitset low hi) v =
      (low + hi * 2 ^ 64 + (2 ^ 128 - v)) % 2 ^ 128 := by
    rw [sub_bitset_val, make_bitset_val low hi hl,
      Nat.mod_eq_of_lt (show low + hi * 2 ^ 64 < 2 ^ 128 by omega),
      Nat.mod_eq_of_lt (show v < 2 ^ 128 by omega)]
  show (split_bitset (sub_bitset (make_bitset low hi) v)).1 +
      (split_bitset (sub_bitset (make_bitset low hi) v)).2 * 2 ^ 64 = _
  rw [hT, split_val _ (Nat.mod_lt _ (by norm_num))]
  rfl

theorem lor_eq_zero {a b : Nat} (h : a ||| b = 0) : a = 0 ∧ b = 0 := by
  have hbit : ∀ i, a.testBit i = false ∧ b.testBit i = false := by
    intro i
    have h2 := congrArg (fun t => Nat.testBit t i) h
    simp only [Nat.testBit_lor, Nat.zero_testBit, Bool.or_eq_false_iff] at h2
    exact h2
  constructor <;> apply Nat.eq_of_testBit_eq <;> intro i <;>
    simp [Nat.zero_testBit, (hbit i).1, (hbit i).2]

theorem eqBool_iff (a b : Name) : Name.eqBool a b = true ↔ a = b := by
  unfold Name.eqBool
  rw [beq_iff_eq]
  constructor
  · intro h
    obtain ⟨h1, h2⟩ := lor_eq_zero h
    have e1 : a.hi = b.hi := Nat.xor_eq_zero.mp h1
    have e2 : a.low = b.low := Nat.xor_eq_zero.mp h2
    cases a; cases b; simp_all
  · intro h
    subst h
    simp [Nat.xor_self]

/-! ### Claim theorems -/

/-- C1, counterexample: the value `2^60` is below the encoder's `2^61`
magnitude guard, is encoded without error, yet decodes to `0` — the tier-4
first byte masks the payload with `0x0F`, keeping only 60 payload bits, so
bit 60 is silently dropped and the claimed round trip fails. -/
theorem varint_trunc_cex :
    (2 ^ 60 : Nat) < 2 ^ 61 ∧ encThenDec (2 ^ 60) = .ok (0, []) ∧
      (0 : Nat) ≠ 2 ^ 60 := by
  refine ⟨by norm_num, by decide, by norm_num⟩

/-- C1, amended: VarInt round trip `decode (encode v) = v` holds for every
`v < 2^60` (not `2^61`: values in `[2^60, 2^61)` are encoded with bit 60
silently dropped), and encoding any `w ≥ 2^61` fails with the magnitude
error. -/
theorem varint_roundtrip_amended (v w : Nat) (hv : v < 2 ^ 60) (hw : 2 ^ 61 ≤ w) :
    encThenDec v = .ok (v, []) ∧ encVarint w = .error .magnitude := by
  refine ⟨?_, encVarint_big w hw⟩
  unfold encThenDec
  by_cases h7 : v < 2 ^ 7
  · rw [encVarint_tier1 v h7]
    simp only [Bind.bind, Except.bind]
    rw [Nat.shiftRight_zero, Nat.or_zero]
    have hb : v &&& 0x7F = v := by
      rw [and_0x7F]
      omega
    rw [hb, decVarint_tier1 v (by omega) [], Nat.shiftLeft_zero, hb]
  · by_cases h14 : v < 2 ^ 14
    · rw [encVarint_tier2 v h7 h14]
      simp only [Bind.bind, Except.bind]
      have hu : (v >>> 8) &&& 0x3F < 64 := by
        have h := @Nat.and_le_right (v >>> 8) 0x3F
        omega
      rw [decVarint_tier2 _ _ hu]
      have hval : (((v >>> 8) &&& 0x3F) <<< 8) + (((v >>> 0) &&& 0xFF) <<< 0) = v := by
        simp only [Nat.shiftRight_zero, Nat.shiftLeft_zero, and_0x3F, and_0xFF,
          Nat.shiftRight_eq_div_pow, Nat.shiftLeft_eq]
        omega
      rw [hval]
    · by_cases h29 : v < 2 ^ 29
      · rw [encVarint_tier3 v h14 h29]
        simp only [Bind.bind, Except.bind]
        have hu : (v >>> 24) &&& 0x1F < 32 := by
          have h := @Nat.and_le_right (v >>> 24) 0x1F
          omega
        rw [decVarint_tier3 _ _ _ _ hu]
        have hval : (((v >>> 24) &&& 0x1F) <<< 24) + (((v >>> 16) &&& 0xFF) <<< 16) +
            (((v >>> 8) &&& 0xFF) <<< 8) + (((v >>> 0) &&& 0xFF) <<< 0) = v := by
          simp only [Nat.shiftRight_zero, Nat.shiftLeft_zero, and_0x1F, and_0xFF,
            Nat.shiftRight_eq_div_pow, Nat.shiftLeft_eq]
          omega
        rw [hval]
      · rw [encVarint_tier4 v h29 (by omega)]
        simp only [Bind.bind, Except.bind]
        have hu : (v >>> 56) &&& 0x0F < 16 := by
          have h := @Nat.and_le_right (v >>> 56) 0x0F
          omega
        rw [decVarint_tier4 _ _ _ _ _ _ _ _ hu]
        have hval : (((v >>> 56) &&& 0x0F) <<< 56) + (((v >>> 48) &&& 0xFF) <<< 48) +
            (((v >>> 40) &&& 0xFF) <<< 40) + (((v >>> 32) &&& 0xFF) <<< 32) +
            (((v >>> 24) &&& 0xFF) <<< 24) + (((v >>> 16) &&& 0xFF) <<< 16) +
            (((v >>> 8) &&& 0xFF) <<< 8) + (((v >>> 0) &&& 0xFF) <<< 0) = v := by
          simp only [Nat.shiftRight_zero, Nat.shiftLeft_zero, and_0x0F, and_0xFF,
            Nat.shiftRight_eq_div_pow, Nat.shiftLeft_eq]
          omega
        rw [hval]

/-- C1, witness: the amended round trip evaluated at `v = 300` and
`w = 2^61`. -/
theorem varint_roundtrip_amended_witness :
    encThenDec 300 = .ok (300, []) ∧ encVarint (2 ^ 61) = .error .magnitude :=
  varint_roundtrip_amended 300 (2 ^ 61) (by norm_num) (by norm_num)

/-- C2: for every in-range `(hi, low)` pair and every shift amount `k`,
`Name::operator>>` and `Name::operator<<` return the name unchanged — the
statements `bits >> value;` / `bits << value;` discard their results, so
no shifting ever happens.  In particular `Name(0x1234) >> 4` is
`0x1234`, not the `0x123` the claim (and the repository's own test
`name.cpp`) requires. -/
theorem name_shift_discarded (hi low k : Nat) (hh : hi < 2 ^ 64) (hl : low < 2 ^ 64) :
    Name.shr ⟨hi, low⟩ k = ⟨hi, low⟩ ∧ Name.shl ⟨hi, low⟩ k = ⟨hi, low⟩ :=
  ⟨name_shr_self hi low k hh hl, name_shl_self hi low k hh hl⟩

/-- C2, witness: the shift no-op evaluated at `Name(0x1234)` with shift
amount 4. -/
theorem name_shift_discarded_witness :
    Name.shr ⟨0, 0x1234⟩ 4 = ⟨0, 0x1234⟩ ∧ Name.shl ⟨0, 0x1234⟩ 4 = ⟨0, 0x1234⟩ :=
  name_shift_discarded 0 0x1234 4 (by norm_num) (by norm_num)

/-- C3: because the shifts in `Namespace::contains` are no-ops, containment
degenerates to full 128-bit equality of candidate and base for every
`sig_bits`; consequently the specified prefix semantics fail: the
spec's own scenario (base `0x...2200`, `sig_bits = 120`, candidate
`0x...22FF`, differing only in the low 8 don't-care bits) is rejected. -/
theorem namespace_contains_eval (bh bl nh nl sig : Nat) (h1 : bh < 2 ^ 64)
    (h2 : bl < 2 ^ 64) (h3 : nh < 2 ^ 64) (h4 : nl < 2 ^ 64) :
    Namespace.containsName ⟨⟨bh, bl⟩, sig⟩ ⟨nh, nl⟩ = Name.eqBool ⟨nh, nl⟩ ⟨bh, bl⟩ ∧
    Namespace.containsName ⟨⟨0x1111111111111111, 0x2222222222222200⟩, 120⟩
      ⟨0x1111111111111111, 0x22222222222222FF⟩ = false := by
  constructor
  · show Name.eqBool (Name.shr ⟨nh, nl⟩ (max_uint_type_bit_size - sig))
        (Name.shr ⟨bh, bl⟩ (max_uint_type_bit_size - sig)) =
      Name.eqBool ⟨nh, nl⟩ ⟨bh, bl⟩
    rw [name_shr_self _ _ _ h3 h4, name_shr_self _ _ _ h1 h2]
  · decide

/-- C3, witness: the containment-is-equality characterization evaluated at
small words, together with the rejected spec scenario. -/
theorem namespace_contains_eval_witness :
    Namespace.containsName ⟨⟨1, 2⟩, 120⟩ ⟨1, 3⟩ = Name.eqBool ⟨1, 3⟩ ⟨1, 2⟩ ∧
    Namespace.containsName ⟨⟨0x1111111111111111, 0x2222222222222200⟩, 120⟩
      ⟨0x1111111111111111, 0x22222222222222FF⟩ = false :=
  namespace_contains_eval 1 2 1 3 120 (by norm_num) (by norm_num) (by norm_num)
    (by norm_num)

/-- C4: equality is bitwise equality of both words as claimed, but
`operator<` is not lexicographic: `std::tie(a._hi, b._low)` compares
`b._low` with itself, so `Name(0x123) < Name(0x124)` is `false` even
though the two names are unequal and `0x124 < 0x123` is also `false` —
two distinct names with equal high words are never ordered. -/
theorem name_lt_misordered :
    (∀ a b : Name, Name.eqBool a b = true ↔ a = b) ∧
    Name.ltBool ⟨0, 0x123⟩ ⟨0, 0x124⟩ = false ∧
    Name.ltBool ⟨0, 0x124⟩ ⟨0, 0x123⟩ = false ∧
    Name.eqBool ⟨0, 0x123⟩ ⟨0, 0x124⟩ = false :=
  ⟨eqBool_iff, by decide, by decide, by decide⟩

/-- C5: the hex-string constructor is an empty stub: it accepts every
string (including the 33-hex-digit one the claim requires to fail),
ignores the input entirely — two distinct valid 32-digit strings yield
identical names, so `to_hex` cannot invert the construction — and
performs no prefix stripping or validation whatsoever. -/
theorem name_hex_ctor_is_stub :
    Name.fromHexString "0x00000000000000000000000000000001" 0 0 =
      Name.fromHexString "0x00000000000000000000000000000002" 0 0 ∧
    Name.fromHexString "0xFFFFFFFFFFFFFFFFFFFFFFFFFFFFFFFF0" 0 0 = ⟨0, 0⟩ ∧
    (∀ s t : String, ∀ jh jl : Nat,
      Name.fromHexString s jh jl = Name.fromHexString t jh jl) :=
  ⟨rfl, rfl, fun _ _ _ _ => rfl⟩

/-- C6, counterexample: a buffer declaring a byte-vector length of `2^16`
with zero payload bytes remaining decodes successfully to an empty
vector — the `size_t` length is truncated through the `uint16_t`
parameter of `front`/`pop` to `0` — instead of failing the
fewer-bytes-than-declared check as the claim requires. -/
theorem readVec_trunc_cex :
    decVarint [0xC0, 1, 0, 0] = .ok (2 ^ 16, []) ∧
    readVec [0xC0, 1, 0, 0] = .ok ([], []) := by
  refine ⟨by decide, by decide⟩

/-- C6, amended: for declared lengths below `2^16` the byte-vector
extractor behaves exactly as specified — zero length fails, a length
exceeding the remaining bytes fails with the bounds error, and otherwise
exactly the declared number of bytes is returned and consumed from the
head; declared lengths `≥ 2^16` are truncated to their low 16 bits
before the check and the read. -/
theorem readVec_eq_spec_of_small_len (msg : List Nat) (len : Nat) (rest : List Nat)
    (h : decVarint msg = .ok (len, rest)) (hlt : len < 2 ^ 16) :
    readVec msg = readVecSpec len rest := by
  by_cases h0 : len = 0
  · simp [readVec, readVecSpec, h, h0, Bind.bind, Except.bind]
  · have hl16 : len % 65536 = len := Nat.mod_eq_of_lt (by omega)
    by_cases hrem : rest.length < len
    · simp [readVec, readVecSpec, h, h0, hrem, mbFrontN, mbPopN, Bind.bind,
        Except.bind, hl16]
    · simp [readVec, readVecSpec, h, h0, hrem, mbFrontN, mbPopN, Bind.bind,
        Except.bind, hl16]

/-- C6, witness: the amended extractor equivalence evaluated on the buffer
`[2, 7, 8, 9]` (declared length 2, remaining bytes `[7, 8, 9]`). -/
theorem readVec_eq_spec_witness :
    readVec [2, 7, 8, 9] = readVecSpec 2 [7, 8, 9] :=
  readVec_eq_spec_of_small_len [2, 7, 8, 9] 2 [7, 8, 9] (by decide) (by norm_num)

/-- C7: `Name::operator+` and `Name::operator-` are full 128-bit addition
and subtraction on the `(hi, low)` pair with wraparound modulo `2^128`,
carries and borrows propagating across the word boundary; in particular
`0x0FFFFFFFFFFFFFFFFFFFFFFFFFFFFFFF + 1 = 0x10000000000000000000000000000000`. -/
theorem name_arith_wraparound (hi low v : Nat) (hh : hi < 2 ^ 64)
    (hl : low < 2 ^ 64) (hv : v < 2 ^ 64) :
    nameVal (Name.add ⟨hi, low⟩ v) = (nameVal ⟨hi, low⟩ + v) % 2 ^ 128 ∧
    nameVal (Name.sub ⟨hi, low⟩ v) = (nameVal ⟨hi, low⟩ + (2 ^ 128 - v)) % 2 ^ 128 ∧
    Name.add ⟨0x0FFFFFFFFFFFFFFF, 0xFFFFFFFFFFFFFFFF⟩ 1 = ⟨0x1000000000000000, 0⟩ :=
  ⟨name_add_val hi low v hh hl hv, name_sub_val hi low v hh hl hv, by decide⟩

/-- C7, witness: the wraparound arithmetic evaluated at `hi = 1`,
`low = 2`, `v = 3`. -/
theorem name_arith_wraparound_witness :
    nameVal (Name.add ⟨1, 2⟩ 3) = (nameVal ⟨1, 2⟩ + 3) % 2 ^ 128 ∧
    nameVal (Name.sub ⟨1, 2⟩ 3) = (nameVal ⟨1, 2⟩ + (2 ^ 128 - 3)) % 2 ^ 128 ∧
    Name.add ⟨0x0FFFFFFFFFFFFFFF, 0xFFFFFFFFFFFFFFFF⟩ 1 = ⟨0x1000000000000000, 0⟩ :=
  name_arith_wraparound 1 2 3 (by norm_num) (by norm_num) (by norm_num)

/-- C8: extraction from an empty buffer raises the distinct buffer-empty
error for the `uint8` and `uint64` operators, but the VarInt operator —
and therefore the byte-vector operator, which begins with it — first
evaluates `msg.front()` on the empty underlying vector, which is
undefined behavior in the C++ source, not the claimed buffer-empty
error. -/
theorem empty_buffer_extraction :
    readUint8 [] = .error .bufferEmpty ∧
    readUint64 [] = .error .bufferEmpty ∧
    decVarint [] = .error .frontOnEmptyUB ∧
    readVec [] = .error .frontOnEmptyUB ∧
    MBErr.frontOnEmptyUB ≠ MBErr.bufferEmpty :=
  ⟨rfl, rfl, rfl, rfl, by decide⟩

/-- C9: the 64-bit-operand bitwise operators apply the operand to the low
word only: `a & v` leaves the high word unchanged (not zeroed) and
`a | v` leaves it unmodified. -/
theorem name_and_or_low_word (hi low v : Nat) :
    Name.and64 ⟨hi, low⟩ v = ⟨hi, low &&& v⟩ ∧
    Name.or64 ⟨hi, low⟩ v = ⟨hi, low ||| v⟩ :=
  ⟨rfl, rfl⟩

/-- C10: the VarInt encoding is self-delimiting: whenever the encoder
accepts `v` and produces `bytes`, running the extractor on `bytes`
followed by any suffix consumes exactly `bytes` — the count determined
by the leading tag bits of the first byte — and leaves the suffix
untouched and in order. -/
theorem varint_self_delimited (v : Nat) (suffix bytes : List Nat)
    (h : encVarint v = .ok bytes) :
    ∃ w, decVarint (bytes ++ suffix) = .ok (w, suffix) := by
  by_cases h61 : 2 ^ 61 ≤ v
  · rw [encVarint_big v h61] at h
    exact absurd h (by simp)
  by_cases h7 : v < 2 ^ 7
  · rw [encVarint_tier1 v h7] at h
    obtain rfl := Except.ok.inj h
    simp only [List.cons_append, List.nil_append]
    rw [Nat.shiftRight_zero, Nat.or_zero]
    have hb : v &&& 0x7F < 128 := by
      have h2 := @Nat.and_le_right v 0x7F
      omega
    exact ⟨_, decVarint_tier1 _ hb suffix⟩
  by_cases h14 : v < 2 ^ 14
  · rw [encVarint_tier2 v h7 h14] at h
    obtain rfl := Except.ok.inj h
    simp only [List.cons_append, List.nil_append]
    have hu : (v >>> 8) &&& 0x3F < 64 := by
      have h2 := @Nat.and_le_right (v >>> 8) 0x3F
      omega
    exact ⟨_, decVarint_tier2 _ _ hu suffix⟩
  by_cases h29 : v < 2 ^ 29
  · rw [encVarint_tier3 v h14 h29] at h
    obtain rfl := Except.ok.inj h
    simp only [List.cons_append, List.nil_append]
    have hu : (v >>> 24) &&& 0x1F < 32 := by
      have h2 := @Nat.and_le_right (v >>> 24) 0x1F
      omega
    exact ⟨_, decVarint_tier3 _ _ _ _ hu suffix⟩
  · rw [encVarint_tier4 v h29 h61] at h
    obtain rfl := Except.ok.inj h
    simp only [List.cons_append, List.nil_append]
    have hu : (v >>> 56) &&& 0x0F < 16 := by
      have h2 := @Nat.and_le_right (v >>> 56) 0x0F
      omega
    exact ⟨_, decVarint_tier4 _ _ _ _ _ _ _ _ hu suffix⟩

/-- C10, witness: the self-delimiting property evaluated at `v = 300`
(encoded `[0x81, 0x2C]`) with suffix `[7]`. -/
theorem varint_self_delimited_witness :
    ∃ w, decVarint ([0x81, 0x2C] ++ [7]) = .ok (w, [7]) :=
  varint_self_delimited 300 [7] [0x81, 0x2C] (by decide)

end quicr
